import Mathlib

/-!
# pc-fingerprinter — verification of the canonicalization, verification and
hardware-comparison core

Shallow embedding of the JavaScript sources `src/src/index.js` and
`src/unnamed/part_002` (two variants of the same CLI).  JavaScript values
flowing through the core are modelled as follows:

* JSON-like structured values (payloads, envelopes) are `JVal`; JavaScript
  objects are ordered association lists of string keys (JavaScript objects
  never hold duplicate keys, which the well-formedness predicate `WF`
  captures where it matters).
* `JSON.stringify` is `stringify`; `canonicalize` is a direct transcription
  of the `canonicalize` function of the source.
* Scalar field values reaching the comparator (`compareHardware`) are
  `Prim`, which keeps the JavaScript distinction between `undefined`,
  `null`, strings, and numbers — crucial because `typeof null === "object"`
  in JavaScript.
-/

namespace PCFP

/-- A JSON-like structured value, as produced by `fs.readJSON` /
`JSON.parse`: `null`, booleans, numbers (integral here; all numbers signed
by the tool are integers), strings, arrays and objects.  An object is the
ordered list of its key/value pairs; the list order is the key order the
parser or constructor produced. -/

inductive JVal where
  | null : JVal
  | bool (b : Bool) : JVal
  | num (n : Int) : JVal
  | str (s : String) : JVal
  | arr (elems : List JVal) : JVal
  | obj (fields : List (String × JVal)) : JVal

/-- Lexicographic comparison of character lists by code point — the string
order used by JavaScript's default `Array.prototype.sort` (which compares
strings ordinally, not by locale). -/

def charsLe : List Char → List Char → Bool
  | [], _ => true
  | _ :: _, [] => false
  | c :: cs, d :: ds => if c < d then true else if d < c then false else charsLe cs ds

/-- Ordinal (code-point-wise) string order, the comparison behind
`Object.keys(obj).sort()` and the MAC-address `.sort()` of the source. -/

def strLe (s t : String) : Prop := charsLe s.data t.data = true

instance : DecidableRel strLe := fun s t =>
  inferInstanceAs (Decidable (charsLe s.data t.data = true))

/-- Key order used by `Object.keys(obj).sort()`: compare the key strings
ordinally (the values do not take part in the comparison). -/

def pairLe (p q : String × JVal) : Prop := strLe p.1 q.1

instance : DecidableRel pairLe := fun p q =>
  inferInstanceAs (Decidable (strLe p.1 q.1))

mutual

/-- Transcription of `canonicalize` (src/src/index.js lines 123–134,
src/unnamed/part_002 lines 131–141):

```js
function canonicalize(obj) {
  if (obj === null || typeof obj !== "object") return obj;
  if (Array.isArray(obj)) return obj.map(canonicalize);
  const out = {};
  Object.keys(obj).sort().forEach((k) => { out[k] = canonicalize(obj[k]); });
  return out;
}
```

Scalars pass through, arrays are mapped element-wise, and an object is
rebuilt with its keys in sorted order.  Since a JavaScript object has no
duplicate keys, sorting the keys and rebuilding is the same as sorting the
key/value pairs by key, which is how it is rendered here. -/

def canonicalize : JVal → JVal
  | .null => .null
  | .bool b => .bool b
  | .num n => .num n
  | .str s => .str s
  | .arr xs => .arr (canonList xs)
  | .obj fs => .obj (List.insertionSort pairLe (canonFields fs))
termination_by structural x => x

/-- `obj.map(canonicalize)` on an array. -/

def canonList : List JVal → List JVal
  | [] => []
  | x :: xs => canonicalize x :: canonList xs
termination_by structural l => l

/-- Element-wise canonicalization of the values of an object's field
list. -/

def canonFields : List (String × JVal) → List (String × JVal)
  | [] => []
  | p :: ps => (p.1, canonicalize p.2) :: canonFields ps
termination_by structural l => l

end

/-- JSON string escaping performed by `JSON.stringify` on a single
character (the common cases; the exact escape table does not matter for any
claim, only that quoting makes a string literal start with `"`). -/

def escapeChar (c : Char) : String :=
  if c = '"' then "\\\""
  else if c = '\\' then "\\\\"
  else if c = '\n' then "\\n"
  else if c = '\t' then "\\t"
  else if c = '\r' then "\\r"
  else String.singleton c

/-- `JSON.stringify` of a string: quote and escape. -/

def quoteStr (s : String) : String :=
  "\"" ++ String.join (s.data.map escapeChar) ++ "\""

mutual

/-- `JSON.stringify` over `JVal`, the serialization the tool signs and
verifies (src/src/index.js lines 237 and 281, src/unnamed/part_002 lines
321 and 373): a single deterministic encode pass, emitting object fields in
their list order. -/

def stringify : JVal → String
  | .null => "null"
  | .bool b => if b then "true" else "false"
  | .num n => n.repr
  | .str s => quoteStr s
  | .arr xs => "[" ++ stringifyList xs ++ "]"
  | .obj fs => "\x7b" ++ stringifyFields fs ++ "\x7d"
termination_by structural x => x

/-- Comma-separated serialization of array elements. -/

def stringifyList : List JVal → String
  | [] => ""
  | [x] => stringify x
  | x :: y :: xs => stringify x ++ "," ++ stringifyList (y :: xs)
termination_by structural l => l

/-- Comma-separated serialization of object fields (`"key":value`). -/

def stringifyFields : List (String × JVal) → String
  | [] => ""
  | [p] => quoteStr p.1 ++ ":" ++ stringify p.2
  | p :: q :: ps => quoteStr p.1 ++ ":" ++ stringify p.2 ++ "," ++ stringifyFields (q :: ps)
termination_by structural l => l

end

mutual

/-- Semantic equality of JSON-like values: identical scalars, sequences of
the same length with semantically equal elements in the same order, and
mappings whose key/value pair lists agree up to a permutation (with
semantically equal values under equal keys) — i.e. the same key/value sets
regardless of insertion order. -/

inductive EquivJ : JVal → JVal → Prop where
  | null : EquivJ .null .null
  | bool (b : Bool) : EquivJ (.bool b) (.bool b)
  | num (n : Int) : EquivJ (.num n) (.num n)
  | str (s : String) : EquivJ (.str s) (.str s)
  | arr {xs ys : List JVal} : EquivL xs ys → EquivJ (.arr xs) (.arr ys)
  | obj {fs gs gs' : List (String × JVal)} :
      EquivF fs gs' → List.Perm gs' gs → EquivJ (.obj fs) (.obj gs)

/-- Pointwise semantic equality of element lists. -/

inductive EquivL : List JVal → List JVal → Prop where
  | nil : EquivL [] []
  | cons {x y : JVal} {xs ys : List JVal} :
      EquivJ x y → EquivL xs ys → EquivL (x :: xs) (y :: ys)

/-- Pointwise semantic equality of field lists: equal keys in the same
positions, semantically equal values. -/

inductive EquivF : List (String × JVal) → List (String × JVal) → Prop where
  | nil : EquivF [] []
  | cons {k : String} {v w : JVal} {ps qs : List (String × JVal)} :
      EquivJ v w → EquivF ps qs → EquivF ((k, v) :: ps) ((k, w) :: qs)

end

/-- Well-formedness of a value that came from a JavaScript runtime: a
JavaScript object cannot hold the same key twice, so every mapping's key
list is duplicate-free (recursively). -/

inductive WF : JVal → Prop where
  | null : WF .null
  | bool (b : Bool) : WF (.bool b)
  | num (n : Int) : WF (.num n)
  | str (s : String) : WF (.str s)
  | arr {xs : List JVal} : (∀ x ∈ xs, WF x) → WF (.arr xs)
  | obj {fs : List (String × JVal)} : (fs.map Prod.fst).Nodup →
      (∀ p ∈ fs, WF p.2) → WF (.obj fs)

/-- Strict key order on fields: the keys compare and differ. -/

def keyStrictLt (p q : String × JVal) : Prop := pairLe p q ∧ p.1 ≠ q.1

/-! ## The hardware comparator (`compareHardware`, `check`) -/

/-- A primitive JavaScript value as it reaches the comparator's `check`
helper after field extraction: `undefined`, `null`, a string, or an
(integral) number.  The constructors are kept distinct because JavaScript
treats them differently: `typeof null === "object"` while
`typeof undefined === "undefined"`, and `String(null) = "null"` while
`String(undefined) = "undefined"`. -/

inductive Prim where
  | undef : Prim
  | null : Prim
  | str (s : String) : Prim
  | num (n : Int) : Prim
deriving DecidableEq

/-- `a === undefined || a === null`. -/

def jsAbsent : Prim → Bool
  | .undef => true
  | .null => true
  | _ => false

/-- `typeof a === "object"`: among the primitives only `null` has typeof
`"object"`. -/

def typeofObject : Prim → Bool
  | .null => true
  | _ => false

/-- `String(a)` — the template-literal/string conversion of a primitive. -/

def jsToString : Prim → String
  | .undef => "undefined"
  | .null => "null"
  | .str s => s
  | .num n => n.repr

/-- `JSON.stringify(a)` for a primitive; `JSON.stringify(undefined)` is
`undefined` (modelled as `none`). -/

def jsonStringifyPrim : Prim → Option String
  | .undef => none
  | .null => some "null"
  | .str s => some (quoteStr s)
  | .num n => some n.repr

/-- Transcription of the `check` helper inside `compareHardware`
(src/src/index.js lines 318–329, src/unnamed/part_002 lines 420–429):

```js
function check(label, a, b) {
  if ((a === undefined || a === null) && (b === undefined || b === null)) return;
  if (typeof a === "object" || typeof b === "object") {
    if (JSON.stringify(a) !== JSON.stringify(b)) mismatches.push(`${label} changed`);
  } else if (String(a) !== String(b)) {
    mismatches.push(`${label}: saved=${a} current=${b}`);
  }
}
```

The mutation of `mismatches` is modelled by passing the accumulated list
and returning it with the pushed entry appended. -/

def check (label : String) (a b : Prim) (acc : List String) : List String :=
  if jsAbsent a && jsAbsent b then acc
  else if typeofObject a || typeofObject b then
    if jsonStringifyPrim a ≠ jsonStringifyPrim b then acc ++ [label ++ " changed"] else acc
  else
    if jsToString a ≠ jsToString b then
      acc ++ [label ++ ": saved=" ++ jsToString a ++ " current=" ++ jsToString b]
    else acc

/-- A JavaScript sub-object field of a snapshot as consumed through
`saved.cpu && saved.cpu.brand`: the sub-object is either `undefined`,
`null`, or present. -/

inductive ObjF (α : Type) where
  | undef : ObjF α
  | null : ObjF α
  | val (a : α) : ObjF α
deriving DecidableEq

/-- `o && f(o)` for a sub-object: JavaScript `&&` returns the falsy
left-hand side (`undefined`/`null`) unchanged, and an object is always
truthy. -/

def andField {α : Type} (o : ObjF α) (f : α → Prim) : Prim :=
  match o with
  | .undef => .undef
  | .null => .null
  | .val a => f a

/-- The `cpu` sub-object of a snapshot (only the fields the comparator
consults are listed in the fixed checklist; the full object also carries
`manufacturer`, `speed` and `cores`). -/

structure CpuInfo where
  manufacturer : Prim
  brand : Prim
  speed : Prim
  physicalCores : Prim
  cores : Prim
deriving DecidableEq

/-- The `bios` sub-object of a snapshot. -/

structure BiosInfo where
  vendor : Prim
  version : Prim
  releaseDate : Prim
  serial : Prim
deriving DecidableEq

/-- The `baseboard` sub-object of a snapshot. -/

structure BaseboardInfo where
  manufacturer : Prim
  model : Prim
  serial : Prim
deriving DecidableEq

/-- The primary-disk sub-object of a snapshot. -/

structure DiskInfo where
  vendor : Prim
  name : Prim
  size : Prim
  serial : Prim
deriving DecidableEq

/-- A network interface entry of `snapshot.net`; `mac` is the MAC-address
string used by the comparator, the other attributes are never consulted. -/

structure NetIf where
  iface : Prim
  mac : String
  ip4 : Prim
  ip6 : Prim
deriving DecidableEq

/-- A hardware snapshot, restricted to the fields `compareHardware`
actually reads (the remaining snapshot fields — `platform`, `arch`,
`hostname`, `os`, `timestamp` — are never consulted by the comparator). -/

structure Snapshot where
  machineId : Prim
  cpu : ObjF CpuInfo
  bios : ObjF BiosInfo
  baseboard : ObjF BaseboardInfo
  disk : ObjF DiskInfo
  net : ObjF (List NetIf)
  memoryGB : Prim
deriving DecidableEq

/-- `(saved.net || [])`: an absent interface list is treated as empty. -/

def netList {α : Type} : ObjF (List α) → List α
  | .undef => []
  | .null => []
  | .val l => l

/-- `Array.prototype.join(",")` for a list of strings. -/

def joinComma : List String → String
  | [] => ""
  | [s] => s
  | s :: t :: rest => s ++ "," ++ joinComma (t :: rest)

/-- The mismatch entry returned when either comparator argument is
missing. -/

def missingMsg : String := "Missing snapshot or current data"

/-- The single coalesced mismatch entry for the MAC set. -/

def netMsg : String := "Network interfaces (MACs) changed"

/-- `(net || []).map(n => n.mac).sort().join(",")` — the normalized,
sorted, comma-joined MAC-set key of one side. -/

def macKey (net : ObjF (List NetIf)) : String :=
  joinComma (List.insertionSort strLe ((netList net).map NetIf.mac))

/-- Transcription of `compareHardware` (src/src/index.js lines 314–371,
src/unnamed/part_002 lines 416–470): a fixed, ordered field checklist,
accumulated through `check`, with the MAC set compared as a sorted
comma-joined string.  A falsy (`null`/`undefined`) argument — modelled by
`none` — short-circuits to a single "missing" entry. -/

def compareHardware : Option Snapshot → Option Snapshot → List String
  | none, _ => [missingMsg]
  | some _, none => [missingMsg]
  | some saved, some current =>
    let m1 := check "machineId" saved.machineId current.machineId []
    let m2 := check "cpu.brand" (andField saved.cpu CpuInfo.brand)
      (andField current.cpu CpuInfo.brand) m1
    let m3 := check "cpu.physicalCores" (andField saved.cpu CpuInfo.physicalCores)
      (andField current.cpu CpuInfo.physicalCores) m2
    let m4 := check "bios.serial" (andField saved.bios BiosInfo.serial)
      (andField current.bios BiosInfo.serial) m3
    let m5 := check "baseboard.serial" (andField saved.baseboard BaseboardInfo.serial)
      (andField current.baseboard BaseboardInfo.serial) m4
    let m6 := check "disk.serial" (andField saved.disk DiskInfo.serial)
      (andField current.disk DiskInfo.serial) m5
    let m7 := if macKey saved.net ≠ macKey current.net then m6 ++ [netMsg] else m6
    check "memoryGB" saved.memoryGB current.memoryGB m7

/-! ## The `verify` command of the two CLI variants -/

/-- Observable outcome of one `verify` run: the byte string whose signature
is checked, the signature verdict, the hardware comparison if and as it was
produced (`none` when the run terminated before comparing), the buyer block
if it was reported, and the process exit code. -/

structure VerifyRun where
  signedBytes : String
  signatureValid : Bool
  comparison : Option (List String)
  buyer : Option JVal
  exitCode : Nat

/-- Transcription of `mainVerify` of src/unnamed/part_002 (lines 364–413):

```js
const payloadJson = JSON.stringify(envelope.payload);
const ok = verifySignature(publicKeyPem, Buffer.from(payloadJson, "utf8"), envelope.signature);
const currentHw = await collectHardwareSnapshot();
const savedHw = envelope.payload.hardwareSnapshot;
const diffs = compareHardware(savedHw, currentHw);
...report ok, diffs, buyer...
if (!ok) process.exit(2);
```

The cryptographic check (`verifySignature`, an opaque wrapper around the
Node `crypto` provider) is abstracted as `sigCheck`, a function of the
serialized payload bytes; the stored snapshot, the freshly collected
snapshot and the buyer block are passed in (hardware collection and file
IO are external).  Note the payload is serialized exactly as it was parsed
from disk — `canonicalize` is not applied here. -/

def mainVerifyCli (sigCheck : String → Bool) (payload : JVal)
    (savedHw currentHw : Option Snapshot) (buyer : Option JVal) : VerifyRun :=
  let payloadJson := stringify payload
  let ok := sigCheck payloadJson
  let diffs := compareHardware savedHw currentHw
  { signedBytes := payloadJson
    signatureValid := ok
    comparison := some diffs
    buyer := buyer
    exitCode := if ok then 0 else 2 }

/-- Transcription of `mainVerify` of src/src/index.js (lines 273–311):

```js
const payloadJson = JSON.stringify(envelope.payload);
const ok = verifySignature(publicKey, Buffer.from(payloadJson, "utf8"), envelope.signature);
console.log("Signature valid:", ok);
if (!ok) { console.error("Signature invalid ..."); process.exit(2); }
const currentHw = await collectHardwareSnapshot();
const savedHw = envelope.payload.hardwareSnapshot;
const diffs = compareHardware(savedHw, currentHw);
...
```

In this variant an invalid signature terminates the process (exit code 2)
*before* the hardware snapshot is collected and compared; the fields after
the exit are `none`. -/

def mainVerifyIndex (sigCheck : String → Bool) (payload : JVal)
    (savedHw currentHw : Option Snapshot) (buyer : Option JVal) : VerifyRun :=
  let payloadJson := stringify payload
  let ok := sigCheck payloadJson
  if ok then
    { signedBytes := payloadJson
      signatureValid := ok
      comparison := some (compareHardware savedHw currentHw)
      buyer := buyer
      exitCode := 0 }
  else
    { signedBytes := payloadJson
      signatureValid := ok
      comparison := none
      buyer := none
      exitCode := 2 }

/-! ## The warranty-expiry computation of `create`

`mainCreate` computes (src/src/index.js lines 216–231, src/unnamed/part_002
lines 296–315):

```js
const expDate = new Date(purchaseDate);        // date-only string → UTC midnight
expDate.setDate(expDate.getDate() + warrantyDays);
... warrantyExpires: expDate.toISOString() ...
```

`getDate`/`setDate` are **local-time** operations of the ECMAScript `Date`
object, so the embedding models the relevant ECMA-262 semantics: time
values are epoch milliseconds, a timezone supplies the UTC offset (in
minutes) for a given UTC instant and for a given local instant, and the
civil-calendar conversions follow the proleptic Gregorian calendar. -/

/-- Milliseconds per day. -/

def msPerDay : Int := 86400000

/-- Milliseconds per minute. -/

def msPerMinute : Int := 60000

/-- Day number (days since 1970-01-01) of a Gregorian civil date; floor
division throughout (Euclidean division by the positive constants). -/

def daysFromCivil (y m d : Int) : Int :=
  let y' := if m ≤ 2 then y - 1 else y
  let era := Int.ediv y' 400
  let yoe := y' - era * 400
  let doy := Int.ediv (153 * (if 2 < m then m - 3 else m + 9) + 2) 5 + d - 1
  let doe := yoe * 365 + Int.ediv yoe 4 - Int.ediv yoe 100 + doy
  era * 146097 + doe - 719468

/-- Civil date `(year, month, day)` of a day number. -/

def civilFromDays (z : Int) : Int × Int × Int :=
  let z' := z + 719468
  let era := Int.ediv z' 146097
  let doe := z' - era * 146097
  let yoe := Int.ediv (doe - Int.ediv doe 1460 + Int.ediv doe 36524 - Int.ediv doe 146096) 365
  let y := yoe + era * 400
  let doy := doe - (365 * yoe + Int.ediv yoe 4 - Int.ediv yoe 100)
  let mp := Int.ediv (5 * doy + 2) 153
  let d := doy - Int.ediv (153 * mp + 2) 5 + 1
  let m := if mp < 10 then mp + 3 else mp - 9
  (if m ≤ 2 then y + 1 else y, m, d)

/-- Read a decimal numeral. -/

def readNat (cs : List Char) : Option Nat :=
  if cs.isEmpty then none
  else cs.foldlM (fun acc c => if c.isDigit then some (acc * 10 + (c.toNat - 48)) else none) 0

/-- `new Date("YYYY-MM-DD")`: an ECMAScript date-only ISO string is parsed
as midnight **UTC** of that calendar date; the result is epoch
milliseconds. -/

def parseDateOnly (s : String) : Option Int :=
  match (s.data.splitOn '-').map readNat with
  | [some y, some m, some d] => some (daysFromCivil (y : Int) (m : Int) (d : Int) * msPerDay)
  | _ => none

/-- A process timezone: UTC offset in minutes as a function of the UTC
instant (used when converting UTC → local) and as a function of the local
instant (used when converting local → UTC, as ECMA-262 `UTC(t)` does). -/

structure JSTimeZone where
  offsetAtUTC : Int → Int
  offsetAtLocal : Int → Int

/-- `LocalTime(t)`: epoch ms shifted to local clock time. -/

def localTime (tz : JSTimeZone) (t : Int) : Int :=
  t + tz.offsetAtUTC t * msPerMinute

/-- `UTC(tLocal)`: local clock time back to epoch ms. -/

def utcFromLocal (tz : JSTimeZone) (tl : Int) : Int :=
  tl - tz.offsetAtLocal tl * msPerMinute

/-- `Date.prototype.getDate()`: the day-of-month of the **local** date. -/

def jsGetDate (tz : JSTimeZone) (t : Int) : Int :=
  (civilFromDays (Int.ediv (localTime tz t) msPerDay)).2.2

/-- `Date.prototype.setDate(dt)`: keep the local year, month and
time-of-day, set the day-of-month to `dt` (with calendar overflow
normalized), and convert back to epoch ms. -/

def jsSetDate (tz : JSTimeZone) (t dt : Int) : Int :=
  let tl := localTime tz t
  let day := Int.ediv tl msPerDay
  let c := civilFromDays day
  let timeWithin := Int.emod tl msPerDay
  let newDay := daysFromCivil c.1 c.2.1 1 + dt - 1
  utcFromLocal tz (newDay * msPerDay + timeWithin)

/-- Left-pad a numeral with zeros. -/

def padNat (width n : Nat) : String :=
  let s := Nat.repr n
  String.mk (List.replicate (width - s.length) '0') ++ s

/-- `Date.prototype.toISOString()`: the UTC instant printed as
`YYYY-MM-DDTHH:MM:SS.mmmZ`. -/

def toISOString (t : Int) : String :=
  let day := Int.ediv t msPerDay
  let ms := (Int.emod t msPerDay).toNat
  let c := civilFromDays day
  padNat 4 c.1.toNat ++ "-" ++ padNat 2 c.2.1.toNat ++ "-" ++ padNat 2 c.2.2.toNat
    ++ "T" ++ padNat 2 (ms / 3600000) ++ ":" ++ padNat 2 (ms / 60000 % 60)
    ++ ":" ++ padNat 2 (ms / 1000 % 60) ++ "." ++ padNat 3 (ms % 1000) ++ "Z"

/-- The `warrantyExpires` string computed by `mainCreate`:
`new Date(purchase)` then `setDate(getDate() + warrantyDays)` then
`toISOString()`; `none` when the purchase date does not parse. -/

def warrantyExpires (tz : JSTimeZone) (purchase : String) (warrantyDays : Int) : Option String :=
  (parseDateOnly purchase).map fun t0 =>
    toISOString (jsSetDate tz t0 (jsGetDate tz t0 + warrantyDays))

/-- The `buyer` block of the payload assembled by `mainCreate`
(src/unnamed/part_002 lines 311–316): name, purchase date, warranty length
and computed expiry. -/

def mainCreateBuyer (tz : JSTimeZone) (buyerName purchase : String)
    (warrantyDays : Int) : Option JVal :=
  (warrantyExpires tz purchase warrantyDays).map fun w =>
    JVal.obj [("name", .str buyerName), ("purchaseDate", .str purchase),
      ("warrantyDays", .num warrantyDays), ("warrantyExpires", .str w)]

/-- The timezone UTC: offset 0 everywhere. -/

def tzUTC : JSTimeZone := ⟨fun _ => 0, fun _ => 0⟩

/-- A fixed-offset timezone (offset in minutes, constant year-round). -/

def tzFixed (o : Int) : JSTimeZone := ⟨fun _ => o, fun _ => o⟩

/-- A timezone with a daylight-saving-style offset change between the
purchase date and the expiry date: UTC−01:00 up to 2025-10-15 00:00 (on
both the UTC and the local clock), UTC±00:00 afterwards. -/

def tzShift : JSTimeZone :=
  let cut := daysFromCivil 2025 10 15 * msPerDay
  ⟨fun t => if t < cut then -60 else 0, fun tl => if tl < cut then -60 else 0⟩

/-! ## Concrete sample data used by counterexamples and witnesses -/

/-- A network interface carrying only a MAC address. -/

def mkNet (m : String) : NetIf := ⟨.undef, m, .undef, .undef⟩

/-- A snapshot with every field absent. -/

def snapEmpty : Snapshot := ⟨.undef, .undef, .undef, .undef, .undef, .undef, .undef⟩

/-- A snapshot whose single interface's MAC string contains a comma. -/

def snapMacComma : Snapshot := { snapEmpty with net := .val [mkNet "a,b"] }

/-- A snapshot with the two interfaces `a` and `b`. -/

def snapMacAB : Snapshot := { snapEmpty with net := .val [mkNet "a", mkNet "b"] }

/-- A two-field object whose keys are out of order, with a nested array. -/

def objBA : JVal := .obj [("b", .num 1), ("a", .arr [.str "v"])]

/-- The same two fields in the opposite insertion order. -/

def objAB : JVal := .obj [("a", .arr [.str "v"]), ("b", .num 1)]

theorem charsLe_cons_iff {c d : Char} {cs ds : List Char} :
    charsLe (c :: cs) (d :: ds) = true ↔ c < d ∨ (c = d ∧ charsLe cs ds = true) := by
  simp only [charsLe]
  split_ifs with h₁ h₂
  · simp [h₁]
  · simp [h₁, h₂, ne_of_gt h₂]
  · have : c = d := le_antisymm (le_of_not_lt h₂) (le_of_not_lt h₁)
    simp [h₁, this]

theorem charsLe_total (xs ys : List Char) : charsLe xs ys = true ∨ charsLe ys xs = true := by
  induction xs generalizing ys with
  | nil => left; rfl
  | cons c cs ih =>
    cases ys with
    | nil => right; rfl
    | cons d ds =>
      rcases lt_trichotomy c d with h | h | h
      · left; rw [charsLe_cons_iff]; exact Or.inl h
      · subst h
        rcases ih ds with h' | h' <;> [left; right] <;>
          rw [charsLe_cons_iff] <;> exact Or.inr ⟨rfl, h'⟩
      · right; rw [charsLe_cons_iff]; exact Or.inl h

theorem charsLe_trans {xs ys zs : List Char}
    (h₁ : charsLe xs ys = true) (h₂ : charsLe ys zs = true) : charsLe xs zs = true := by
  induction xs generalizing ys zs with
  | nil => rfl
  | cons c cs ih =>
    cases ys with
    | nil => simp [charsLe] at h₁
    | cons d ds =>
      cases zs with
      | nil => simp [charsLe] at h₂
      | cons e es =>
        rw [charsLe_cons_iff] at h₁ h₂ ⊢
        rcases h₁ with h₁ | ⟨rfl, h₁⟩
        · rcases h₂ with h₂ | ⟨rfl, _⟩
          · exact Or.inl (lt_trans h₁ h₂)
          · exact Or.inl h₁
        · rcases h₂ with h₂ | ⟨rfl, h₂⟩
          · exact Or.inl h₂
          · exact Or.inr ⟨rfl, ih h₁ h₂⟩

theorem charsLe_antisymm {xs ys : List Char}
    (h₁ : charsLe xs ys = true) (h₂ : charsLe ys xs = true) : xs = ys := by
  induction xs generalizing ys with
  | nil =>
    cases ys with
    | nil => rfl
    | cons d ds => simp [charsLe] at h₂
  | cons c cs ih =>
    cases ys with
    | nil => simp [charsLe] at h₁
    | cons d ds =>
      rw [charsLe_cons_iff] at h₁ h₂
      rcases h₁ with h₁ | ⟨rfl, h₁⟩
      · rcases h₂ with h₂ | ⟨rfl, _⟩
        · exact absurd h₂ (lt_asymm h₁)
        · exact absurd h₁ (lt_irrefl _)
      · rcases h₂ with h₂ | ⟨_, h₂⟩
        · exact absurd h₂ (lt_irrefl _)
        · rw [ih h₁ h₂]

/-- Two strings with the same character data are equal. -/

theorem strData_inj {s t : String} (h : s.data = t.data) : s = t := by
  cases s; cases t; exact congrArg String.mk h

instance : IsTotal String strLe := ⟨fun s t => charsLe_total s.data t.data⟩

instance : IsTrans String strLe := ⟨fun _ _ _ h₁ h₂ => charsLe_trans h₁ h₂⟩

instance : IsAntisymm String strLe :=
  ⟨fun _ _ h₁ h₂ => strData_inj (charsLe_antisymm h₁ h₂)⟩

instance : IsTotal (String × JVal) pairLe := ⟨fun p q => total_of strLe p.1 q.1⟩

instance : IsTrans (String × JVal) pairLe :=
  ⟨fun _ _ _ h₁ h₂ => charsLe_trans h₁ h₂⟩

instance : IsAntisymm (String × JVal) keyStrictLt :=
  ⟨fun p q h₁ h₂ => absurd (strData_inj (charsLe_antisymm h₁.1 h₂.1)) h₁.2⟩

theorem canonList_eq_map (xs : List JVal) :
    canonList xs = xs.map canonicalize := by
  induction xs with
  | nil => rfl
  | cons x xs ih => simp [canonList, ih]

theorem canonFields_eq_map (ps : List (String × JVal)) :
    canonFields ps = ps.map (fun p => (p.1, canonicalize p.2)) := by
  induction ps with
  | nil => rfl
  | cons p ps ih => simp [canonFields, ih]

/-! ## Canonicalization: idempotence (C6) and order-insensitivity (C7) -/

/-- Canonicalizing the values of a field list commutes with sorting the
field list by key, because the key order ignores the values. -/

theorem canonFields_insertionSort (l : List (String × JVal)) :
    canonFields (List.insertionSort pairLe l) =
      List.insertionSort pairLe (canonFields l) := by
  rw [canonFields_eq_map, canonFields_eq_map]
  exact List.map_insertionSort pairLe pairLe _ l (fun _ _ _ _ => Iff.rfl)

theorem canonicalize_canonicalize : ∀ x : JVal, canonicalize (canonicalize x) = canonicalize x := by
  have key : ∀ (n : Nat) (x : JVal), sizeOf x ≤ n →
      canonicalize (canonicalize x) = canonicalize x := by
    intro n
    induction n with
    | zero => intro x hx; cases x <;> simp at hx
    | succ n ih =>
      intro x hx
      cases x with
      | null => rfl
      | bool b => rfl
      | num m => rfl
      | str s => rfl
      | arr xs =>
        simp only [canonicalize, canonList_eq_map, JVal.arr.injEq, List.map_map]
        refine List.map_congr_left (fun y hy => ?_)
        have hsz : sizeOf y < sizeOf xs := List.sizeOf_lt_of_mem hy
        simp at hx
        exact ih y (by omega)
      | obj fs =>
        simp only [canonicalize, canonFields_insertionSort, JVal.obj.injEq]
        have hpt : canonFields (canonFields fs) = canonFields fs := by
          rw [canonFields_eq_map, canonFields_eq_map, List.map_map]
          refine List.map_congr_left (fun p hp => ?_)
          have hsz : sizeOf p < sizeOf fs := List.sizeOf_lt_of_mem hp
          have hv : sizeOf p.2 < sizeOf p := by
            obtain ⟨k, v⟩ := p; simp
          simp at hx
          simp only [Function.comp]
          rw [ih p.2 (by omega)]
        rw [hpt]
        exact ((List.sorted_insertionSort pairLe (canonFields fs)).insertionSort_eq)
  exact fun x => key (sizeOf x) x le_rfl

theorem pairwise_keyStrictLt {l : List (String × JVal)}
    (hs : List.Sorted pairLe l) (hn : (l.map Prod.fst).Nodup) :
    List.Pairwise keyStrictLt l := by
  have hne : List.Pairwise (fun p q : String × JVal => p.1 ≠ q.1) l :=
    (List.pairwise_map.mp hn)
  exact hs.and hne

/-- Two permuted field lists that are both sorted by key and have
duplicate-free keys are equal (sorting by key alone cannot distinguish
them). -/

theorem perm_sorted_nodup_eq {l₁ l₂ : List (String × JVal)}
    (hp : l₁.Perm l₂) (hs₁ : List.Sorted pairLe l₁) (hs₂ : List.Sorted pairLe l₂)
    (hn₂ : (l₂.map Prod.fst).Nodup) : l₁ = l₂ := by
  have hn₁ : (l₁.map Prod.fst).Nodup := ((hp.map Prod.fst).nodup_iff).mpr hn₂
  exact List.eq_of_perm_of_sorted hp
    (show List.Sorted keyStrictLt l₁ from pairwise_keyStrictLt hs₁ hn₁)
    (show List.Sorted keyStrictLt l₂ from pairwise_keyStrictLt hs₂ hn₂)

theorem canonFields_keys (l : List (String × JVal)) :
    (canonFields l).map Prod.fst = l.map Prod.fst := by
  rw [canonFields_eq_map, List.map_map]; rfl

/-- Canonicalization maps semantically equal well-formed values to the same
canonical form. -/

theorem equiv_canonicalize_eq :
    ∀ (x y : JVal), EquivJ x y → WF x → WF y → canonicalize x = canonicalize y := by
  have key : ∀ (n : Nat) (x y : JVal), sizeOf x ≤ n → EquivJ x y → WF x → WF y →
      canonicalize x = canonicalize y := by
    intro n
    induction n with
    | zero => intro x y hx; cases x <;> simp at hx
    | succ n ih =>
      have innerL : ∀ (xs : List JVal), sizeOf xs ≤ n → ∀ ys, EquivL xs ys →
          (∀ x ∈ xs, WF x) → (∀ y ∈ ys, WF y) → canonList xs = canonList ys := by
        intro xs
        induction xs with
        | nil => intro _ ys hL _ _; cases hL; rfl
        | cons x xs' ihxs =>
          intro hb ys hL hwx hwy
          cases hL with
          | cons hxy hL' =>
            rename_i y ys'
            simp only [canonList]
            simp at hb
            rw [ih x y (by omega) hxy (hwx _ (by simp)) (hwy _ (by simp))]
            rw [ihxs (by omega) _ hL' (fun z hz => hwx z (by simp [hz]))
                  (fun z hz => hwy z (by simp [hz]))]
      have innerF : ∀ (ps : List (String × JVal)), sizeOf ps ≤ n →
          ∀ qs, EquivF ps qs → (∀ p ∈ ps, WF p.2) → (∀ q ∈ qs, WF q.2) →
          canonFields ps = canonFields qs := by
        intro ps
        induction ps with
        | nil => intro _ qs hF _ _; cases hF; rfl
        | cons p ps' ihps =>
          intro hb qs hF hwx hwy
          cases hF with
          | cons hvw hF' =>
            rename_i k v w qs'
            simp only [canonFields]
            simp at hb
            rw [ih v w (by omega) hvw (hwx (k, v) (by simp)) (hwy (k, w) (by simp))]
            rw [ihps (by omega) _ hF' (fun z hz => hwx z (by simp [hz]))
                  (fun z hz => hwy z (by simp [hz]))]
      intro x y hsz hEq hwx hwy
      cases hEq with
      | null => rfl
      | bool b => rfl
      | num m => rfl
      | str s => rfl
      | arr hL =>
        rename_i xs ys
        cases hwx with | arr hwx =>
        cases hwy with | arr hwy =>
        simp only [canonicalize, JVal.arr.injEq]
        simp at hsz
        exact innerL xs (by omega) ys hL hwx hwy
      | obj hF hPerm =>
        rename_i fs gs gs'
        cases hwx with | obj hnfs hwx =>
        cases hwy with | obj hngs hwy =>
        simp only [canonicalize, JVal.obj.injEq]
        simp at hsz
        have hmem : ∀ p ∈ gs', WF p.2 := fun p hp => hwy p (hPerm.mem_iff.mp hp)
        have step1 : canonFields fs = canonFields gs' :=
          innerF fs (by omega) gs' hF hwx hmem
        have step2 : (canonFields gs').Perm (canonFields gs) := by
          rw [canonFields_eq_map, canonFields_eq_map]
          exact hPerm.map _
        refine perm_sorted_nodup_eq ?_
          (List.sorted_insertionSort _ _) (List.sorted_insertionSort _ _) ?_
        · refine ((List.perm_insertionSort _ _).trans ?_).trans
            (List.perm_insertionSort _ _).symm
          rw [step1]; exact step2
        · have hpm := (List.perm_insertionSort pairLe (canonFields gs)).map Prod.fst
          rw [hpm.nodup_iff, canonFields_keys]
          exact hngs
  exact fun x y => key (sizeOf x) x y le_rfl

/-! ## String facts: a rendered number or a quoted string is never the
four characters `null` -/

theorem digitChar_isDigit {n : Nat} (h : n < 10) : (Nat.digitChar n).isDigit = true := by
  interval_cases n <;> decide

theorem toDigitsCore_digits (fuel : Nat) :
    ∀ (n : Nat) (ds : List Char), (∀ c ∈ ds, c.isDigit = true) →
    ∀ c ∈ Nat.toDigitsCore 10 fuel n ds, c.isDigit = true := by
  induction fuel with
  | zero => intro n ds hds; simpa [Nat.toDigitsCore] using hds
  | succ fuel ih =>
    intro n ds hds
    have hcons : ∀ c ∈ Nat.digitChar (n % 10) :: ds, c.isDigit = true := by
      intro c hc
      rcases List.mem_cons.mp hc with rfl | hc
      · exact digitChar_isDigit (Nat.mod_lt _ (by decide))
      · exact hds _ hc
    simp only [Nat.toDigitsCore]
    split
    · exact hcons
    · exact ih _ _ hcons

theorem natRepr_ne_null (n : Nat) : Nat.repr n ≠ "null" := by
  intro h
  have hdig : ∀ c ∈ (Nat.repr n).data, c.isDigit = true :=
    toDigitsCore_digits (n + 1) n [] (by simp)
  rw [h] at hdig
  exact absurd (hdig 'n' (by decide)) (by decide)

theorem intRepr_ne_null (n : Int) : n.repr ≠ "null" := by
  cases n with
  | ofNat m => exact natRepr_ne_null m
  | negSucc m =>
    intro h
    have hd := congrArg String.data h
    rw [Int.repr, String.data_append ("-") (Nat.repr (Nat.succ m))] at hd
    have : '-' = 'n' := by
      have h2 : ('-' :: (Nat.repr (Nat.succ m)).data) = ['n', 'u', 'l', 'l'] := hd
      exact (List.cons.injEq _ _ _ _ ▸ h2 : _ ∧ _).1
    exact absurd this (by decide)

theorem quoteStr_ne_null (s : String) : quoteStr s ≠ "null" := by
  intro h
  have hd := congrArg String.data h
  rw [quoteStr, String.data_append, String.data_append] at hd
  have : '"' = 'n' := by
    have h2 : ('"' :: (String.join (s.data.map escapeChar)).data ++ ['"'])
        = ['n', 'u', 'l', 'l'] := hd
    exact (List.cons.injEq _ _ _ _ ▸ h2 : _ ∧ _).1
  exact absurd this (by decide)

/-! ## Behavior of `check` -/

theorem check_self (label : String) (a : Prim) (acc : List String) :
    check label a a acc = acc := by
  cases a <;> simp [check, jsAbsent, typeofObject]

/-- Full characterization of `check`: nothing is appended when both sides
are absent; the value-less `"<label> changed"` entry is appended whenever
one side is `null` and the other present (because `typeof null` is
`"object"` and the JSON renderings then always differ); otherwise the
value-carrying entry is appended exactly when the string conversions
differ (with `undefined` rendered as the string `undefined`). -/

theorem check_eq (label : String) (a b : Prim) (acc : List String) :
    check label a b acc =
      if jsAbsent a && jsAbsent b then acc
      else if a = .null ∨ b = .null then acc ++ [label ++ " changed"]
      else if jsToString a ≠ jsToString b then
        acc ++ [label ++ ": saved=" ++ jsToString a ++ " current=" ++ jsToString b]
      else acc := by
  cases a with
  | undef =>
    cases b with
    | undef => rfl
    | null => rfl
    | str s => simp [check, jsAbsent, typeofObject, jsToString]
    | num n => simp [check, jsAbsent, typeofObject, jsToString]
  | null =>
    cases b with
    | undef => rfl
    | null => rfl
    | str s =>
      have h := Ne.symm (quoteStr_ne_null s)
      simp [check, jsAbsent, typeofObject, jsonStringifyPrim, h]
    | num n =>
      have h := Ne.symm (intRepr_ne_null n)
      simp [check, jsAbsent, typeofObject, jsonStringifyPrim, h]
  | str s =>
    cases b with
    | undef => simp [check, jsAbsent, typeofObject, jsToString]
    | null =>
      have h := quoteStr_ne_null s
      simp [check, jsAbsent, typeofObject, jsonStringifyPrim, h]
    | str t => simp [check, jsAbsent, typeofObject, jsToString, quoteStr]
    | num n => simp [check, jsAbsent, typeofObject, jsToString]
  | num n =>
    cases b with
    | undef => simp [check, jsAbsent, typeofObject, jsToString]
    | null =>
      have h := intRepr_ne_null n
      simp [check, jsAbsent, typeofObject, jsonStringifyPrim, h]
    | str t => simp [check, jsAbsent, typeofObject, jsToString]
    | num m => simp [check, jsAbsent, typeofObject, jsToString, jsonStringifyPrim]

/-! ## The MAC-set entry is the only entry `check` can never produce -/

theorem append_ne_netMsg {label : String} (c : Char)
    (hlabel : label.data.head? = some c) (hc : c ≠ 'N') (t : String) :
    label ++ t ≠ netMsg := by
  intro h
  have hd := congrArg String.data h
  rw [String.data_append] at hd
  have h1 : (label.data ++ t.data).head? = some 'N' := by rw [hd]; decide
  cases hl : label.data with
  | nil => rw [hl] at hlabel; simp at hlabel
  | cons d ds =>
    rw [hl] at hlabel h1
    simp only [List.cons_append, List.head?_cons, Option.some.injEq] at hlabel h1
    exact hc (hlabel ▸ h1)

theorem count_check (label : String) (c : Char)
    (hlabel : label.data.head? = some c) (hc : c ≠ 'N')
    (a b : Prim) (acc : List String) :
    (check label a b acc).count netMsg = acc.count netMsg := by
  have h1 : (label ++ " changed") ≠ netMsg := append_ne_netMsg c hlabel hc _
  have h2 : (label ++ ": saved=" ++ jsToString a ++ " current=" ++ jsToString b) ≠ netMsg := by
    rw [String.append_assoc, String.append_assoc, String.append_assoc]
    exact append_ne_netMsg c hlabel hc _
  rw [check_eq]
  split_ifs <;> simp [List.count_append, List.count_cons, h1, h2]

/-- The MAC-set entry appears in a comparison of two present snapshots
exactly when the two normalized MAC keys differ — and then exactly once. -/

theorem compareHardware_count (s c : Snapshot) :
    (compareHardware (some s) (some c)).count netMsg
      = if macKey s.net ≠ macKey c.net then 1 else 0 := by
  simp only [compareHardware]
  rw [count_check "memoryGB" 'm' (by decide) (by decide)]
  split_ifs with h
  · rw [List.count_append,
      count_check "disk.serial" 'd' (by decide) (by decide),
      count_check "baseboard.serial" 'b' (by decide) (by decide),
      count_check "bios.serial" 'b' (by decide) (by decide),
      count_check "cpu.physicalCores" 'c' (by decide) (by decide),
      count_check "cpu.brand" 'c' (by decide) (by decide),
      count_check "machineId" 'm' (by decide) (by decide)]
    simp
  · rw [count_check "disk.serial" 'd' (by decide) (by decide),
      count_check "baseboard.serial" 'b' (by decide) (by decide),
      count_check "bios.serial" 'b' (by decide) (by decide),
      count_check "cpu.physicalCores" 'c' (by decide) (by decide),
      count_check "cpu.brand" 'c' (by decide) (by decide),
      count_check "machineId" 'm' (by decide) (by decide)]
    simp

/-! ## Comparing a snapshot with itself -/

theorem compareHardware_self_eq_nil (s : Snapshot) :
    compareHardware (some s) (some s) = [] := by
  simp [compareHardware, check_self]

/-! ## Permutation invariance of the MAC-set key -/

theorem insertionSort_strLe_perm_eq {l₁ l₂ : List String} (h : l₁.Perm l₂) :
    List.insertionSort strLe l₁ = List.insertionSort strLe l₂ :=
  List.eq_of_perm_of_sorted
    (((List.perm_insertionSort strLe l₁).trans h).trans
      (List.perm_insertionSort strLe l₂).symm)
    (List.sorted_insertionSort strLe l₁) (List.sorted_insertionSort strLe l₂)

theorem macKey_perm {l₁ l₂ : List NetIf} (h : l₁.Perm l₂) :
    macKey (.val l₁) = macKey (.val l₂) := by
  unfold macKey netList
  rw [insertionSort_strLe_perm_eq (h.map NetIf.mac)]

theorem compareHardware_net_perm (s c : Snapshot) {l₁ l₂ : List NetIf}
    (h : l₁.Perm l₂) :
    compareHardware (some { s with net := .val l₁ }) (some c)
        = compareHardware (some { s with net := .val l₂ }) (some c)
      ∧ compareHardware (some c) (some { s with net := .val l₁ })
        = compareHardware (some c) (some { s with net := .val l₂ }) := by
  constructor <;> · simp only [compareHardware]; rw [macKey_perm h]

/-! ## Injectivity of the sorted comma-join on well-formed MAC strings -/

theorem commaFree_append_cancel :
    ∀ (xs : List Char) (p : List Char) (ys q : List Char),
      ',' ∉ xs → ',' ∉ ys →
      (p = [] ∨ p.head? = some ',') → (q = [] ∨ q.head? = some ',') →
      xs ++ p = ys ++ q → xs = ys ∧ p = q := by
  intro xs
  induction xs with
  | nil =>
    intro p ys q _ hys hp hq h
    cases ys with
    | nil => exact ⟨rfl, h⟩
    | cons y ys' =>
      exfalso
      rw [List.nil_append] at h
      rcases hp with rfl | hp
      · simp at h
      · rw [h] at hp
        simp at hp
        exact hys (hp ▸ List.mem_cons_self y ys')
  | cons x xs' ih =>
    intro p ys q hxs hys hp hq h
    cases ys with
    | nil =>
      exfalso
      rw [List.nil_append] at h
      rcases hq with rfl | hq
      · simp at h
      · rw [← h] at hq
        simp at hq
        exact hxs (hq ▸ List.mem_cons_self x xs')
    | cons y ys' =>
      simp only [List.cons_append, List.cons.injEq] at h
      obtain ⟨rfl, h2⟩ := h
      have := ih p ys' q (fun hm => hxs (List.mem_cons_of_mem _ hm))
        (fun hm => hys (List.mem_cons_of_mem _ hm)) hp hq h2
      exact ⟨by rw [this.1], this.2⟩

theorem joinComma_data_cons₂ (s t : String) (rest : List String) :
    (joinComma (s :: t :: rest)).data
      = s.data ++ ',' :: (joinComma (t :: rest)).data := by
  show ((s ++ "," ++ joinComma (t :: rest))).data = _
  rw [String.data_append, String.data_append]
  simp

/-- On lists of nonempty, comma-free strings, the comma-join is
injective. -/

theorem joinComma_inj :
    ∀ (l₁ l₂ : List String),
      (∀ s ∈ l₁, s ≠ "" ∧ ',' ∉ s.data) → (∀ s ∈ l₂, s ≠ "" ∧ ',' ∉ s.data) →
      joinComma l₁ = joinComma l₂ → l₁ = l₂ := by
  have nonempty_data : ∀ (s : String), s ≠ "" → s.data ≠ [] := by
    intro s hs h
    exact hs (strData_inj h)
  intro l₁
  induction l₁ with
  | nil =>
    intro l₂ _ h₂ h
    cases l₂ with
    | nil => rfl
    | cons b bs =>
      exfalso
      cases bs with
      | nil => exact (h₂ b (by simp)).1 (by simpa [joinComma] using h.symm)
      | cons c bs' =>
        have hd := congrArg String.data h
        rw [joinComma_data_cons₂] at hd
        have : b.data = [] := by
          rcases List.append_eq_nil.mp hd.symm with ⟨hb, _⟩
          exact hb
        exact nonempty_data b (h₂ b (by simp)).1 this
  | cons a as ih =>
    intro l₂ h₁ h₂ h
    cases l₂ with
    | nil =>
      exfalso
      cases as with
      | nil => exact (h₁ a (by simp)).1 (by simpa [joinComma] using h)
      | cons c as' =>
        have hd := congrArg String.data h
        rw [joinComma_data_cons₂] at hd
        have : a.data = [] := by
          rcases List.append_eq_nil.mp hd with ⟨ha, _⟩
          exact ha
        exact nonempty_data a (h₁ a (by simp)).1 this
    | cons b bs =>
      have hd := congrArg String.data h
      cases as with
      | nil =>
        cases bs with
        | nil => rw [show a = b from strData_inj hd]
        | cons c bs' =>
          exfalso
          rw [joinComma_data_cons₂] at hd
          have := commaFree_append_cancel a.data [] b.data
            (',' :: (joinComma (c :: bs')).data)
            (h₁ a (by simp)).2 (h₂ b (by simp)).2 (Or.inl rfl) (Or.inr rfl)
            (by simpa using hd)
          simp at this
      | cons c as' =>
        cases bs with
        | nil =>
          exfalso
          rw [joinComma_data_cons₂] at hd
          have := commaFree_append_cancel a.data
            (',' :: (joinComma (c :: as')).data) b.data []
            (h₁ a (by simp)).2 (h₂ b (by simp)).2 (Or.inr rfl) (Or.inl rfl)
            (by simpa using hd)
          simp at this
        | cons d bs' =>
          rw [joinComma_data_cons₂, joinComma_data_cons₂] at hd
          have hcancel := commaFree_append_cancel a.data
            (',' :: (joinComma (c :: as')).data) b.data
            (',' :: (joinComma (d :: bs')).data)
            (h₁ a (by simp)).2 (h₂ b (by simp)).2 (Or.inr rfl) (Or.inr rfl) hd
          have hab : a = b := strData_inj hcancel.1
          have htail : joinComma (c :: as') = joinComma (d :: bs') := by
            have := hcancel.2
            simp only [List.cons.injEq, true_and] at this
            exact strData_inj this
          have := ih (d :: bs') (fun z hz => h₁ z (by simp [hz]))
            (fun z hz => h₂ z (by simp [hz])) htail
          rw [hab, this]

/-- If the MAC multisets of the two sides genuinely differ and every MAC
string is nonempty and comma-free, then the two normalized keys differ. -/

theorem sortedJoin_ne_of_not_perm {A B : List String}
    (hA : ∀ m ∈ A, m ≠ "" ∧ ',' ∉ m.data) (hB : ∀ m ∈ B, m ≠ "" ∧ ',' ∉ m.data)
    (hne : ¬ A.Perm B) :
    joinComma (List.insertionSort strLe A) ≠ joinComma (List.insertionSort strLe B) := by
  intro h
  have hs : List.insertionSort strLe A = List.insertionSort strLe B :=
    joinComma_inj _ _ (fun m hm => hA m ((List.mem_insertionSort strLe).mp hm))
      (fun m hm => hB m ((List.mem_insertionSort strLe).mp hm)) h
  refine hne ((List.perm_insertionSort strLe A).symm.trans ?_)
  rw [hs]
  exact List.perm_insertionSort strLe B

/-- Core's `/` on `Int` is Euclidean division, as used by the date model. -/
theorem ediv_eq_div (a b : Int) : Int.ediv a b = a / b := rfl

/-- Core's `%` on `Int` is the Euclidean remainder, as used by the date
model. -/
theorem emod_eq_mod (a b : Int) : Int.emod a b = a % b := rfl

/-! ## The claims -/

/-- C1 — the spec claims `verify` re-canonicalizes the payload read back
from disk before serializing it into the checked bytes, making those bytes
independent of the on-disk parser's key order.  The code (both variants)
serializes `envelope.payload` exactly as parsed, without `canonicalize`:
for the same two-field payload parsed in its two possible key orders the
verifier checks different byte strings, whereas the re-canonicalized
serialization demanded by the spec is the same for both.  This evaluates
the embedded `mainVerify` byte computation at such a payload. -/

theorem mainVerify_bytes_depend_on_parser_key_order :
    ∀ sigCheck : String → Bool,
      (mainVerifyCli sigCheck (JVal.obj [("b", .num 1), ("a", .num 2)])
          none none none).signedBytes
        ≠ (mainVerifyCli sigCheck (JVal.obj [("a", .num 2), ("b", .num 1)])
          none none none).signedBytes
      ∧ (mainVerifyIndex sigCheck (JVal.obj [("b", .num 1), ("a", .num 2)])
          none none none).signedBytes
        ≠ (mainVerifyIndex sigCheck (JVal.obj [("a", .num 2), ("b", .num 1)])
          none none none).signedBytes
      ∧ stringify (canonicalize (JVal.obj [("b", .num 1), ("a", .num 2)]))
        = stringify (canonicalize (JVal.obj [("a", .num 2), ("b", .num 1)])) := by
  intro sigCheck
  refine ⟨?_, ?_, by decide⟩
  · show stringify (JVal.obj [("b", .num 1), ("a", .num 2)])
      ≠ stringify (JVal.obj [("a", .num 2), ("b", .num 1)])
    decide
  · have hbytes : ∀ (p : JVal),
        (mainVerifyIndex sigCheck p none none none).signedBytes = stringify p := by
      intro p
      simp only [mainVerifyIndex]
      split <;> rfl
    rw [hbytes, hbytes]
    decide

/-- C2 (counterexample) — in the src/src/index.js variant of `verify`, an
invalid signature *does* suppress the hardware comparison: the run exits
with code 2 with no comparison performed or reported, refuting the claim
for that variant. -/

theorem mainVerifyIndex_suppresses_comparison :
    (mainVerifyIndex (fun _ => false) JVal.null (some snapEmpty) (some snapEmpty)
        (some (JVal.str "buyer"))).comparison = none
    ∧ (mainVerifyIndex (fun _ => false) JVal.null (some snapEmpty) (some snapEmpty)
        (some (JVal.str "buyer"))).exitCode = 2
    ∧ (mainVerifyIndex (fun _ => false) JVal.null (some snapEmpty) (some snapEmpty)
        (some (JVal.str "buyer"))).signatureValid = false := by
  exact ⟨rfl, rfl, rfl⟩

/-- C2 (amended) — in the src/unnamed/part_002 variant the comparison is
always computed and reported together with the signature verdict,
whatever that verdict is; in the src/src/index.js variant the comparison
is reported exactly when the signature verifies, and an invalid signature
exits (code 2) before any comparison. -/

theorem verify_comparison_by_variant :
    ∀ (sigCheck : String → Bool) (p : JVal) (s c : Option Snapshot) (b : Option JVal),
      (mainVerifyCli sigCheck p s c b).comparison = some (compareHardware s c)
      ∧ (mainVerifyCli sigCheck p s c b).signatureValid = sigCheck (stringify p)
      ∧ (mainVerifyCli sigCheck p s c b).exitCode
          = (if sigCheck (stringify p) then 0 else 2)
      ∧ (mainVerifyIndex sigCheck p s c b).comparison
          = (if sigCheck (stringify p) then some (compareHardware s c) else none) := by
  intro sigCheck p s c b
  refine ⟨rfl, rfl, rfl, ?_⟩
  simp only [mainVerifyIndex]
  split <;> rfl

/-- C3 (counterexample) — the checklist policy does not always name both
values: a saved `"X"` against a current `null` takes the
`typeof null === "object"` deep-compare branch and pushes only
`"cpu.brand changed"`, without the two values; and a side that is absent
as `undefined` compared against the literal string `"undefined"` produces
no mismatch at all even though exactly one side is absent. -/

theorem check_entry_counterexample :
    (check "cpu.brand" (Prim.str "X") Prim.null [] = ["cpu.brand changed"]
      ∧ "cpu.brand changed" ≠ "cpu.brand: saved=X current=null")
    ∧ check "cpu.brand" Prim.undef (Prim.str "undefined") [] = [] := by
  exact ⟨⟨by decide, by decide⟩, by decide⟩

/-- C3 (amended) — the per-field policy of `check`, exactly: if both sides
are absent (`undefined`/`null`) nothing is appended; otherwise, if either
side is `null`, exactly the value-less entry `"<field> changed"` is
appended; otherwise exactly one entry naming the field and both values is
appended precisely when the string/number conversions differ, an
`undefined` side being rendered as the string `undefined`. -/

theorem check_mismatch_policy (label : String) (a b : Prim) (acc : List String) :
    check label a b acc =
      if jsAbsent a && jsAbsent b then acc
      else if a = .null ∨ b = .null then acc ++ [label ++ " changed"]
      else if jsToString a ≠ jsToString b then
        acc ++ [label ++ ": saved=" ++ jsToString a ++ " current=" ++ jsToString b]
      else acc :=
  check_eq label a b acc

/-- C4 (counterexample) — the expiry arithmetic is performed with the
local-time `getDate`/`setDate`, not in UTC: in a timezone whose UTC offset
changes from −01:00 to ±00:00 between the purchase date and the expiry
date, creating with purchase 2025-09-18 and 90 warranty days yields
`2025-12-16T23:00:00.000Z`, not the claimed `2025-12-17T00:00:00.000Z`. -/

theorem warrantyExpires_dst_counterexample :
    warrantyExpires tzShift "2025-09-18" 90 = some "2025-12-16T23:00:00.000Z"
    ∧ some "2025-12-16T23:00:00.000Z" ≠ some "2025-12-17T00:00:00.000Z" := by
  exact ⟨by decide, by decide⟩

/-- C4 (amended) — for every timezone whose UTC offset in effect at the
purchase instant (2025-09-18T00:00:00Z, epoch ms 1758153600000) equals the
offset in effect at the expiry's local instant 90 days later, with the
offset within ±24 hours (every real-world offset is within ±14 hours), the
local-calendar arithmetic cancels the offset and the computed
`payload.buyer.warrantyExpires` for purchase 2025-09-18 with 90 warranty
days is exactly `2025-12-17T00:00:00.000Z` — in particular in every
fixed-offset timezone; only a timezone whose offset changes between the
two dates (daylight saving) shifts the result. -/
theorem warrantyExpires_offset_cancel (tz : JSTimeZone) (o : Int)
    (hlo : -1440 < o) (hhi : o < 1440)
    (hU : tz.offsetAtUTC 1758153600000 = o)
    (hL : tz.offsetAtLocal (1758153600000 + o * 60000 + 90 * 86400000) = o) :
    warrantyExpires tz "2025-09-18" 90 = some "2025-12-17T00:00:00.000Z"
    ∧ mainCreateBuyer tz "Jane Doe" "2025-09-18" 90
      = some (JVal.obj [("name", .str "Jane Doe"), ("purchaseDate", .str "2025-09-18"),
          ("warrantyDays", .num 90),
          ("warrantyExpires", .str "2025-12-17T00:00:00.000Z")]) := by
  have hp : parseDateOnly "2025-09-18" = some 1758153600000 := by decide
  have hsd : jsSetDate tz 1758153600000 (jsGetDate tz 1758153600000 + 90)
      = 1765929600000 := by
    simp only [jsSetDate, jsGetDate, localTime, utcFromLocal, msPerDay, msPerMinute,
      ediv_eq_div, emod_eq_mod, hU]
    rcases le_or_lt 0 o with ho | ho
    · have hday : (1758153600000 + o * 60000) / 86400000 = 20349 := by omega
      have hmod : (1758153600000 + o * 60000) % 86400000 = o * 60000 := by omega
      rw [hday, hmod]
      have hc : civilFromDays 20349 = (2025, 9, 18) := by decide
      rw [hc]
      norm_num
      have hd : daysFromCivil 2025 9 1 = 20332 := by decide
      rw [hd]
      have harg : (20332 + 108 - 1) * 86400000 + o * 60000
          = 1758153600000 + o * 60000 + 90 * 86400000 := by ring
      rw [harg, hL]
      ring
    · have hday : (1758153600000 + o * 60000) / 86400000 = 20348 := by omega
      have hmod : (1758153600000 + o * 60000) % 86400000 = 86400000 + o * 60000 := by omega
      rw [hday, hmod]
      have hc : civilFromDays 20348 = (2025, 9, 17) := by decide
      rw [hc]
      norm_num
      have hd : daysFromCivil 2025 9 1 = 20332 := by decide
      rw [hd]
      have harg : (20332 + 107 - 1) * 86400000 + (86400000 + o * 60000)
          = 1758153600000 + o * 60000 + 90 * 86400000 := by ring
      rw [harg, hL]
      ring
  have hW : warrantyExpires tz "2025-09-18" 90 = some "2025-12-17T00:00:00.000Z" := by
    rw [warrantyExpires, hp]
    simp only [Option.map_some']
    rw [hsd]
    decide
  refine ⟨hW, ?_⟩
  rw [mainCreateBuyer, hW]
  rfl

/-- Witness for C4 (amended) at the concrete fixed-offset timezone
UTC−05:00: its offset is −300 minutes at both relevant instants, within
±24 hours, and the theorem yields the claimed expiry string and buyer
block. -/
theorem warrantyExpires_offset_cancel_witness :
    ((-1440 : Int) < -300 ∧ (-300 : Int) < 1440
      ∧ (tzFixed (-300)).offsetAtUTC 1758153600000 = -300
      ∧ (tzFixed (-300)).offsetAtLocal (1758153600000 + -300 * 60000 + 90 * 86400000) = -300)
    ∧ warrantyExpires (tzFixed (-300)) "2025-09-18" 90 = some "2025-12-17T00:00:00.000Z"
    ∧ mainCreateBuyer (tzFixed (-300)) "Jane Doe" "2025-09-18" 90
      = some (JVal.obj [("name", .str "Jane Doe"), ("purchaseDate", .str "2025-09-18"),
          ("warrantyDays", .num 90),
          ("warrantyExpires", .str "2025-12-17T00:00:00.000Z")]) := by
  obtain ⟨h1, h2⟩ := warrantyExpires_offset_cancel (tzFixed (-300)) (-300)
    (by decide) (by decide) rfl rfl
  exact ⟨⟨by decide, by decide, rfl, rfl⟩, h1, h2⟩

/-- C6 — canonicalization is idempotent: re-canonicalizing an already
canonical value changes nothing, for every JSON-like structured value. -/

theorem canonicalize_idempotent (x : JVal) :
    canonicalize (canonicalize x) = canonicalize x :=
  canonicalize_canonicalize x

/-- C7 — canonicalization is insensitive to mapping insertion order: two
semantically equal JavaScript values (identical key/value sets in every
nested mapping — which in a JavaScript runtime always have duplicate-free
keys, captured by `WF` — and identical sequence order) have the same
canonical form, and hence serialize to identical bytes. -/

theorem canonicalize_order_insensitive (x y : JVal)
    (h : EquivJ x y) (hx : WF x) (hy : WF y) :
    canonicalize x = canonicalize y
    ∧ stringify (canonicalize x) = stringify (canonicalize y) := by
  have := equiv_canonicalize_eq x y h hx hy
  exact ⟨this, by rw [this]⟩

/-- Witness for C7 at a concrete pair: the two insertion orders of the
same two-field object (with a nested array) are semantically equal,
well-formed, and canonicalize to the same serialized bytes. -/

theorem canonicalize_order_insensitive_witness :
    (EquivJ objBA objAB ∧ WF objBA ∧ WF objAB)
    ∧ (canonicalize objBA = canonicalize objAB
        ∧ stringify (canonicalize objBA) = stringify (canonicalize objAB)) := by
  have hF : EquivF [("b", JVal.num 1), ("a", JVal.arr [.str "v"])]
      [("b", JVal.num 1), ("a", JVal.arr [.str "v"])] :=
    EquivF.cons (EquivJ.num 1)
      (EquivF.cons (EquivJ.arr (EquivL.cons (EquivJ.str "v") EquivL.nil)) EquivF.nil)
  have hEq : EquivJ objBA objAB :=
    EquivJ.obj hF (List.Perm.swap ("a", JVal.arr [.str "v"]) ("b", JVal.num 1) [])
  have hwBA : WF objBA := by
    refine WF.obj (by decide) ?_
    intro p hp
    simp [objBA] at hp
    rcases hp with rfl | rfl
    · exact WF.num 1
    · exact WF.arr (by intro z hz; simp at hz; subst hz; exact WF.str "v")
  have hwAB : WF objAB := by
    refine WF.obj (by decide) ?_
    intro p hp
    simp [objAB] at hp
    rcases hp with rfl | rfl
    · exact WF.arr (by intro z hz; simp at hz; subst hz; exact WF.str "v")
    · exact WF.num 1
  exact ⟨⟨hEq, hwBA, hwAB⟩,
    canonicalize_order_insensitive objBA objAB hEq hwBA hwAB⟩

/-- C8 — comparing any snapshot against an identical copy yields zero
mismatches. -/

theorem compareHardware_self_empty (s : Snapshot) :
    compareHardware (some s) (some s) = [] :=
  compareHardware_self_eq_nil s

/-- C9 (counterexample) — a genuine difference in MAC membership need not
produce a mismatch entry: the single interface `"a,b"` and the two
interfaces `"a"`, `"b"` have different MAC multisets, yet their sorted
comma-joined keys collide and `Compare` reports no mismatch at all. -/

theorem compareHardware_mac_membership_counterexample :
    compareHardware (some snapMacComma) (some snapMacAB) = []
    ∧ ¬ ((netList snapMacComma.net).map NetIf.mac).Perm
        ((netList snapMacAB.net).map NetIf.mac) := by
  exact ⟨by decide, by decide⟩

/-- C9 (amended) — the MAC-set comparison is order-independent and
coalesced: permuting the interface list of either side never changes the
`Compare` result; the network field contributes at most one mismatch
entry; and whenever every MAC string on both sides is nonempty and
comma-free, any difference in MAC multiset membership produces exactly one
network mismatch entry (never one per MAC). -/

theorem compareHardware_mac_policy :
    (∀ (s c : Snapshot) (l₁ l₂ : List NetIf), l₁.Perm l₂ →
      compareHardware (some { s with net := .val l₁ }) (some c)
          = compareHardware (some { s with net := .val l₂ }) (some c)
      ∧ compareHardware (some c) (some { s with net := .val l₁ })
          = compareHardware (some c) (some { s with net := .val l₂ }))
    ∧ (∀ s c : Snapshot, (compareHardware (some s) (some c)).count netMsg ≤ 1)
    ∧ (∀ s c : Snapshot,
        (∀ m ∈ (netList s.net).map NetIf.mac, m ≠ "" ∧ ',' ∉ m.data) →
        (∀ m ∈ (netList c.net).map NetIf.mac, m ≠ "" ∧ ',' ∉ m.data) →
        ¬ ((netList s.net).map NetIf.mac).Perm ((netList c.net).map NetIf.mac) →
        (compareHardware (some s) (some c)).count netMsg = 1) := by
  refine ⟨fun s c l₁ l₂ h => compareHardware_net_perm s c h, fun s c => ?_, fun s c hs hc hne => ?_⟩
  · rw [compareHardware_count]
    split <;> omega
  · rw [compareHardware_count, if_pos]
    exact sortedJoin_ne_of_not_perm hs hc hne

/-- Witness for C9 at concrete inputs: swapping the two interfaces of one
side leaves the result unchanged, and the membership difference between
`["aa"]` and `["bb"]` produces exactly one network mismatch entry. -/

theorem compareHardware_mac_policy_witness :
    ([mkNet "aa", mkNet "bb"].Perm [mkNet "bb", mkNet "aa"]
      ∧ compareHardware (some { snapEmpty with net := .val [mkNet "aa", mkNet "bb"] })
          (some snapEmpty)
        = compareHardware (some { snapEmpty with net := .val [mkNet "bb", mkNet "aa"] })
          (some snapEmpty))
    ∧ (compareHardware (some { snapEmpty with net := .val [mkNet "aa"] })
        (some { snapEmpty with net := .val [mkNet "bb"] })).count netMsg = 1 := by
  have hperm : [mkNet "aa", mkNet "bb"].Perm [mkNet "bb", mkNet "aa"] :=
    List.Perm.swap (mkNet "bb") (mkNet "aa") []
  refine ⟨⟨hperm, (compareHardware_mac_policy.1 snapEmpty snapEmpty _ _ hperm).1⟩, ?_⟩
  exact compareHardware_mac_policy.2.2
    { snapEmpty with net := .val [mkNet "aa"] }
    { snapEmpty with net := .val [mkNet "bb"] }
    (by decide) (by decide) (by decide)

/-- C10 — when either comparator argument is missing (`null`/`undefined`,
modelled as `none`), `Compare` returns exactly the one-element list with
the missing-data message and performs no per-field check. -/

theorem compareHardware_missing (s c : Option Snapshot)
    (h : s = none ∨ c = none) :
    compareHardware s c = ["Missing snapshot or current data"] := by
  rcases h with rfl | rfl
  · rfl
  · cases s <;> rfl

/-- Witness for C10: a missing saved snapshot against a present current
snapshot yields exactly the missing-data message. -/

theorem compareHardware_missing_witness :
    compareHardware none (some snapEmpty) = ["Missing snapshot or current data"] :=
  compareHardware_missing none (some snapEmpty) (Or.inl rfl)

end PCFP
